import Mathlib

/-!
Verification of the compaction subsystem in src/meta/src/hummock/compaction/mod.rs.

Shallow embedding conventions:
* Rust u64 / u32 values (task ids, epochs, level indices) are modelled as Nat.
  The only arithmetic performed on them by the embedded code is `+ 1`, `- 1`,
  `max` and comparisons, none of which reaches the wrap-around range on any
  reachable state, so overflow is not modelled.
* Opaque byte strings are modelled as lists of naturals.
* Rust panics (slice indexing out of bounds, assertion failure, unwrap of a
  decode error) make the embedded function return none, or a dedicated
  outcome constructor where the distinction to a returned error matters.
* The tier compaction picker (tier_compaction_picker.rs) and the overlap
  strategy (overlap_strategy.rs) are private submodules that are not part of
  the sources at hand; get_compact_task is therefore embedded parametrically
  over the pick step, exactly at the seam where mod.rs calls
  TierCompactionPicker::pick_compaction.
-/

/-- Opaque byte strings (the bound type of key ranges) as lists of naturals. -/
abbrev Bytes := List Nat

/-- Lexicographic three-way comparison of byte strings. -/
def cmpBytes : Bytes → Bytes → Ordering
  | [], [] => Ordering.eq
  | [], _ :: _ => Ordering.lt
  | _ :: _, [] => Ordering.gt
  | a :: as, b :: bs =>
    if a < b then Ordering.lt
    else if b < a then Ordering.gt
    else cmpBytes as bs

/-- Modelled from the spec: the KeyRange abstraction of risingwave_hummock_sdk
(not among the sources at hand). A closed-open interval over opaque byte
strings, totally ordered by left bound and then right bound. -/
structure KeyRange where
  left : Bytes
  right : Bytes
deriving DecidableEq

/-- Modelled from the spec: total order on key ranges, left bound first and
then right bound, both compared lexicographically. -/
def KeyRange.cmp (a b : KeyRange) : Ordering :=
  match cmpBytes a.left b.left with
  | Ordering.eq => cmpBytes a.right b.right
  | o => o

/-- Non-strict comparison derived from KeyRange.cmp, the form used by the
sort_by call in apply_compact_result. -/
def KeyRange.le (a b : KeyRange) : Bool :=
  match KeyRange.cmp a b with
  | Ordering.gt => false
  | _ => true

/-- Modelled from the spec: the default overlap strategy treats ranges as
closed-open byte intervals; two such intervals intersect iff each left bound
is strictly below the other interval's right bound. -/
def KeyRange.overlaps (a b : KeyRange) : Bool :=
  decide (cmpBytes a.left b.right = Ordering.lt) &&
    decide (cmpBytes b.left a.right = Ordering.lt)

/-- SST descriptor (risingwave_pb SstableInfo): an id used for set-membership
and removal comparisons, plus the key range it covers. The protobuf field
key_range is optional in the generated code and unconditionally unwrapped by
the embedded sort; the claims only exercise descriptors that carry a range,
so the field is modelled as always present. -/
structure SstableInfo where
  id : Nat
  key_range : KeyRange
deriving DecidableEq

/-- Level (risingwave_pb Level): a level index and an ordered table list. -/
structure Level where
  level_idx : Nat
  table_infos : List SstableInfo
deriving DecidableEq

/-- Level with its table list replaced. -/
def withTableInfos (lvl : Level) (infos : List SstableInfo) : Level :=
  { lvl with table_infos := infos }

/-- HummockEpoch is u64; HummockEpoch::MAX is u64::MAX. -/
def HummockEpoch.MAX : Nat := 2 ^ 64 - 1

/-- CompactTask (risingwave_pb CompactTask) restricted to the fields the
embedded code reads or writes. The metrics field (f64 statistics, always
zero-initialized here) and the empty placeholder prefix_pairs are omitted:
no claim mentions them and no embedded operation reads them. -/
structure CompactTask where
  input_ssts : List Level
  splits : List KeyRange
  watermark : Nat
  sorted_output_ssts : List SstableInfo
  task_id : Nat
  target_level : Nat
  is_target_ultimate_and_leveling : Bool
  task_status : Bool
deriving DecidableEq

/-- The source level index of a task as built by get_compact_task: the
level_idx of the first entry of input_ssts (input_ssts[0] is always the
select level there). -/
def CompactTask.selectLevelIdx (t : CompactTask) : Nat :=
  match t.input_ssts with
  | [] => 0
  | lvl :: _ => lvl.level_idx

/-- HummockVersion restricted to the fields apply_compact_result touches;
the remaining fields (version id, uncommitted epochs, max committed epoch)
are passed through unchanged by the embedded code and carry no claim. -/
structure HummockVersion where
  levels : List Level
  safe_epoch : Nat
deriving DecidableEq

/-- Modelled from the spec: LevelHandler (src/meta/src/hummock/level_handler.rs,
not among the sources at hand) owns its level index and a mapping from task id
to the set of table ids that task has reserved in this level. -/
structure LevelHandler where
  level_idx : Nat
  reserved : List (Nat × List Nat)
deriving DecidableEq

/-- Modelled from the spec: a fresh handler for the given level carries no
reservations. -/
def LevelHandler.new (level : Nat) : LevelHandler :=
  { level_idx := level, reserved := [] }

/-- Modelled from the spec: remove_task drops every reservation entry of the
given task id; removing a task id that is not present is a no-op. -/
def LevelHandler.remove_task (h : LevelHandler) (task_id : Nat) : LevelHandler :=
  { h with reserved := h.reserved.filter (fun e => e.1 != task_id) }

/-- CompactStatus: the persisted aggregate of all level handlers plus the
task-id counter. -/
structure CompactStatus where
  level_handlers : List LevelHandler
  next_compact_task_id : Nat
deriving DecidableEq

/-- CompactStatus::new: two fresh handlers (levels 0 and 1), counter at 1. -/
def CompactStatus.new : CompactStatus :=
  { level_handlers := [LevelHandler.new 0, LevelHandler.new 1]
    next_compact_task_id := 1 }

/-- SearchResult as returned by the picker to get_compact_task. -/
structure SearchResult where
  select_level : Level
  target_level : Level
  split_ranges : List KeyRange

/-- The pick step that get_compact_task delegates to (the seam at
pick_compaction): it receives the fresh task id, the caller-supplied levels
and the current level handlers, and on success returns the search result
together with the handlers extended with the new reservations. mod.rs never
inspects the picker beyond this interface. -/
def PickFn : Type :=
  Nat → List Level → List LevelHandler → Option (SearchResult × List LevelHandler)

/-- CompactStatus::get_compact_task. On a successful pick it builds the task
descriptor (task id = current counter, watermark = HummockEpoch::MAX, empty
outputs, the ultimate-and-leveling flag from the post-pick handler count and
the select level index) and bumps the counter by one; on None it returns
nothing and leaves the state unchanged. -/
def CompactStatus.get_compact_task (s : CompactStatus) (pick : PickFn)
    (levels : List Level) : Option (CompactTask × CompactStatus) :=
  match pick s.next_compact_task_id levels s.level_handlers with
  | none => none
  | some (ret, handlers) =>
    let select_level_id := ret.select_level.level_idx
    let target_level_id := ret.target_level.level_idx
    let compact_task : CompactTask :=
      { input_ssts := [ret.select_level, ret.target_level]
        splits := ret.split_ranges
        watermark := HummockEpoch.MAX
        sorted_output_ssts := []
        task_id := s.next_compact_task_id
        target_level := target_level_id
        is_target_ultimate_and_leveling :=
          decide (target_level_id = handlers.length - 1) &&
            decide (0 < select_level_id)
        task_status := false }
    some (compact_task,
      { level_handlers := handlers
        next_compact_task_id := s.next_compact_task_id + 1 })

/-- One step of report_compact_task: index the handler list at position i
(a Rust slice index, none on out-of-bounds panic) and apply remove_task. -/
def removeTaskAt (handlers : List LevelHandler) (i : Nat) (task_id : Nat) :
    Option (List LevelHandler) :=
  match handlers[i]? with
  | none => none
  | some h => some (handlers.set i (h.remove_task task_id))

/-- The loop of report_compact_task over the task's input levels. -/
def reportLoop (task_id : Nat) (handlers : List LevelHandler) :
    List Level → Option (List LevelHandler)
  | [] => some handlers
  | lvl :: rest =>
    match removeTaskAt handlers lvl.level_idx task_id with
    | none => none
    | some handlers1 => reportLoop task_id handlers1 rest

/-- CompactStatus::report_compact_task: for every input level of the task,
remove the task's reservations from that level's handler. -/
def CompactStatus.report_compact_task (s : CompactStatus)
    (compact_task : CompactTask) : Option CompactStatus :=
  match reportLoop compact_task.task_id s.level_handlers compact_task.input_ssts with
  | none => none
  | some handlers => some { s with level_handlers := handlers }

/-- Keep-predicate of the level-0 rebuild: a table survives iff its id
differs from every id in the task's first input level. -/
def keepFn (stale : List SstableInfo) (table : SstableInfo) : Bool :=
  stale.all (fun s => table.id != s.id)

/-- The level-0 rebuild loop of apply_compact_result: walk the old table
list; push every kept table; at the first removed table splice in the whole
output list and set the flag; skip later removed tables. -/
def rebuildL0 (stale outputs : List SstableInfo) :
    List SstableInfo → Bool → List SstableInfo
  | [], _ => []
  | table :: rest, find_remove_position =>
    if keepFn stale table then
      table :: rebuildL0 stale outputs rest find_remove_position
    else if !find_remove_position then
      outputs ++ rebuildL0 stale outputs rest true
    else
      rebuildL0 stale outputs rest find_remove_position

/-- Comparison used by the sort_by call in apply_compact_result: key ranges
of the two descriptors compared by KeyRange.cmp. -/
def sstLe (a b : SstableInfo) : Bool :=
  KeyRange.le a.key_range b.key_range

/-- The removal loop of the non-zero-target branch: for input level at
position idx, retain in the version's level at the same position every table
whose id matches no input table; positions beyond the version's level list
are a Rust indexing panic (none). -/
def removeInputs : List Level → List Level → Option (List Level)
  | levels, [] => some levels
  | [], _ :: _ => none
  | lvl :: levels, input_level :: inputs =>
    match removeInputs levels inputs with
    | none => none
    | some rest =>
      some ({ lvl with table_infos :=
        lvl.table_infos.filter (fun sst =>
          input_level.table_infos.all (fun stale => sst.id != stale.id)) } :: rest)

/-- CompactStatus::apply_compact_result. Sets safe_epoch to the max of the
base epoch and the task watermark; then either rebuilds level 0 in place
(target_level == 0, after asserting input_ssts[0].level_idx == 0) or removes
all input tables positionally, appends the outputs to the target level and
re-sorts that level by key range. A none result stands for a Rust panic
(failed assertion or out-of-bounds index). -/
def CompactStatus.apply_compact_result (compact_task : CompactTask)
    (based_hummock_version : HummockVersion) : Option HummockVersion :=
  let v := { based_hummock_version with
    safe_epoch := max based_hummock_version.safe_epoch compact_task.watermark }
  if compact_task.target_level = 0 then
    match compact_task.input_ssts[0]? with
    | none => none
    | some input0 =>
      if input0.level_idx ≠ 0 then none
      else
        match v.levels[0]? with
        | none => none
        | some level0 =>
          let new_table_infos :=
            rebuildL0 input0.table_infos compact_task.sorted_output_ssts
              level0.table_infos false
          let new_level0 : Level := { level0 with table_infos := new_table_infos }
          some { v with levels := v.levels.set 0 new_level0 }
  else
    match removeInputs v.levels compact_task.input_ssts with
    | none => none
    | some levels1 =>
      match levels1[compact_task.target_level]? with
      | none => none
      | some target_lvl =>
        let extended := target_lvl.table_infos ++ compact_task.sorted_output_ssts
        let new_target : Level := { target_lvl with table_infos := extended.mergeSort sstLe }
        some { v with levels := levels1.set compact_task.target_level new_target }

/-- Errors of the abstract metadata store; CompactStatus::get distinguishes
only the item-not-found variant. -/
inductive StorageError where
  | itemNotFound (msg : String)
  | other (msg : String)
deriving DecidableEq

/-- Outcome of CompactStatus::get: a returned Ok (with or without a status),
a returned error, or a process abort of the unwrap on a decode failure. -/
inductive GetOutcome where
  | ok (status : Option CompactStatus)
  | err (e : StorageError)
  | panicked
deriving DecidableEq

/-- True exactly on the returned-error outcome. -/
def GetOutcome.isOutcomeErr : GetOutcome → Bool
  | GetOutcome.err _ => true
  | _ => false

/-- CompactStatus::get, parametric over the store's answer for the
compact_status key and over protobuf decoding (the prost-generated decoder
composed with the field-wise From conversion; both outside the sources at
hand). On store success the record is decoded and the decode result
unwrapped, so a decode failure aborts; on store failure, item-not-found
becomes Ok(None) and every other error is returned. -/
def CompactStatus.get (store_result : Except StorageError Bytes)
    (decodeStatus : Bytes → Option CompactStatus) : GetOutcome :=
  match store_result with
  | Except.ok v =>
    match decodeStatus v with
    | some compact_status => GetOutcome.ok (some compact_status)
    | none => GetOutcome.panicked
  | Except.error e =>
    match e with
    | StorageError.itemNotFound _ => GetOutcome.ok none
    | _ => GetOutcome.err e

/-- Sortedness of a table list in the order used by the re-sort. -/
def levelSorted (tables : List SstableInfo) : Prop :=
  tables.Pairwise (fun a b => sstLe a b = true)

/-- The levels-at-least-one invariant for a single level: the table list is
sorted by key range and pairwise non-overlapping. -/
def levelOk (lvl : Level) : Prop :=
  lvl.table_infos.Pairwise (fun a b =>
    sstLe a b = true ∧ KeyRange.overlaps a.key_range b.key_range = false)

/-- The version invariant: every level with level_idx at least 1 is sorted
by key range and pairwise non-overlapping. -/
def versionLevelsOk (v : HummockVersion) : Prop :=
  ∀ lvl ∈ v.levels, 1 ≤ lvl.level_idx → levelOk lvl

/-- Driver for the monotonic-task-id property: run get_compact_task once per
entry of the input list, collecting the tasks of the successful picks and
threading the status through (an unsuccessful pick leaves the status
unchanged, as in the source). -/
def runPicks (pick : PickFn) : CompactStatus → List (List Level) →
    List CompactTask × CompactStatus
  | s, [] => ([], s)
  | s, levels :: rest =>
    match s.get_compact_task pick levels with
    | none => runPicks pick s rest
    | some (task, s1) =>
      let p := runPicks pick s1 rest
      (task :: p.1, p.2)

/- The kernel can evaluate mergeSort on the concrete inputs of the witnesses
and counterexamples once it is allowed to unfold. -/
unseal List.merge List.mergeSort

/-- Demo pick step for the witnesses: an empty L0-to-L1 search result with
the handlers unchanged. -/
def demoPick : PickFn := fun _ _ handlers =>
  some ({ select_level := { level_idx := 0, table_infos := [] }
          target_level := { level_idx := 1, table_infos := [] }
          split_ranges := [] }, handlers)

/-- The task that demoPick makes CompactStatus.new.get_compact_task return. -/
def demoTask1 : CompactTask :=
  { input_ssts := [{ level_idx := 0, table_infos := [] },
      { level_idx := 1, table_infos := [] }]
    splits := []
    watermark := HummockEpoch.MAX
    sorted_output_ssts := []
    task_id := 1
    target_level := 1
    is_target_ultimate_and_leveling := false
    task_status := false }

/-- The status after the demo pick: same handlers, counter bumped to 2. -/
def demoStatus1 : CompactStatus :=
  { level_handlers := [LevelHandler.new 0, LevelHandler.new 1]
    next_compact_task_id := 2 }

/-- Demo base version for the watermark witness. -/
def demoVersion7 : HummockVersion :=
  { levels := [{ level_idx := 0, table_infos := [] },
      { level_idx := 1, table_infos := [] }]
    safe_epoch := 5 }

/-- Result of applying demoTask1 to demoVersion7. -/
def demoVersion7After : HummockVersion :=
  { levels := [{ level_idx := 0, table_infos := [] },
      { level_idx := 1, table_infos := [] }]
    safe_epoch := HummockEpoch.MAX }

/-- Table sitting in level 1 of the C2 counterexample's base version. -/
def c2Table10 : SstableInfo :=
  { id := 10, key_range := { left := [0], right := [1] } }

/-- Output table of the C2 counterexample's task: same key range as
c2Table10 but a different id. -/
def c2Table11 : SstableInfo :=
  { id := 11, key_range := { left := [0], right := [1] } }

/-- Base version of the C2 counterexample: level 1 holds the single table
c2Table10, so every level with level_idx at least 1 is sorted and
non-overlapping. -/
def c2BaseVersion : HummockVersion :=
  { levels := [{ level_idx := 0, table_infos := [] },
      { level_idx := 1, table_infos := [c2Table10] }]
    safe_epoch := 0 }

/-- Task of the C2 counterexample: removes nothing and contributes an output
table whose range coincides with the one already in the target level. -/
def c2Task : CompactTask :=
  { input_ssts := [{ level_idx := 0, table_infos := [] },
      { level_idx := 1, table_infos := [] }]
    splits := []
    watermark := 0
    sorted_output_ssts := [c2Table11]
    task_id := 1
    target_level := 1
    is_target_ultimate_and_leveling := false
    task_status := false }

/-- Version produced by applying c2Task to c2BaseVersion: level 1 now holds
two tables with identical key ranges. -/
def c2ResultVersion : HummockVersion :=
  { levels := [{ level_idx := 0, table_infos := [] },
      { level_idx := 1, table_infos := [c2Table10, c2Table11] }]
    safe_epoch := 0 }

/-- Bytes of the C3 counterexample's stored record. -/
def badBytes : Bytes := [0]

/-- A decoder that rejects every input, standing for a corrupted record. -/
def failDecode : Bytes → Option CompactStatus := fun _ => none

/-- Tables of the C4 witness. -/
def c4Table1 : SstableInfo :=
  { id := 1, key_range := { left := [0], right := [1] } }

def c4Table2 : SstableInfo :=
  { id := 2, key_range := { left := [2], right := [3] } }

def c4Table3 : SstableInfo :=
  { id := 3, key_range := { left := [4], right := [5] } }

def c4OutTable : SstableInfo :=
  { id := 9, key_range := { left := [1], right := [4] } }

/-- Base version of the C4 witness: three tables in level 0. -/
def c4BaseVersion : HummockVersion :=
  { levels := [{ level_idx := 0, table_infos := [c4Table1, c4Table2, c4Table3] },
      { level_idx := 1, table_infos := [] }]
    safe_epoch := 0 }

/-- Task of the C4 witness: a pure L0 reorganization consuming c4Table2 and
producing c4OutTable. -/
def c4Task : CompactTask :=
  { input_ssts := [{ level_idx := 0, table_infos := [c4Table2] }]
    splits := []
    watermark := 0
    sorted_output_ssts := [c4OutTable]
    task_id := 4
    target_level := 0
    is_target_ultimate_and_leveling := false
    task_status := false }

/-- Base version of the C10 witness: one table in level 0. -/
def c10BaseVersion : HummockVersion :=
  { levels := [{ level_idx := 0, table_infos := [c4Table1] }]
    safe_epoch := 0 }

/-- Task of the C10 witness: target level 0, non-empty outputs, but its
input table id 2 matches nothing in the base level 0. -/
def c10Task : CompactTask :=
  { input_ssts := [{ level_idx := 0, table_infos := [c4Table2] }]
    splits := []
    watermark := 0
    sorted_output_ssts := [c4OutTable]
    task_id := 6
    target_level := 0
    is_target_ultimate_and_leveling := false
    task_status := false }

/-- Status of the C6 witness: task 7 holds reservations in both levels. -/
def demoStatus6 : CompactStatus :=
  { level_handlers := [{ level_idx := 0, reserved := [(7, [1, 2])] },
      { level_idx := 1, reserved := [(7, [3])] }]
    next_compact_task_id := 9 }

/-- Task of the C6 witness. -/
def demoTask6 : CompactTask :=
  { input_ssts := [{ level_idx := 0, table_infos := [] },
      { level_idx := 1, table_infos := [] }]
    splits := []
    watermark := 0
    sorted_output_ssts := []
    task_id := 7
    target_level := 1
    is_target_ultimate_and_leveling := false
    task_status := false }

/-- Status after the first report of demoTask6: both reservations gone. -/
def demoStatus6After : CompactStatus :=
  { level_handlers := [{ level_idx := 0, reserved := [] },
      { level_idx := 1, reserved := [] }]
    next_compact_task_id := 9 }

/-- Version produced by applying c4Task to c4BaseVersion: the output table
replaces c4Table2 at its position in level 0. -/
def c4ResultVersion : HummockVersion :=
  { levels := [{ level_idx := 0, table_infos := [c4Table1, c4OutTable, c4Table3] },
      { level_idx := 1, table_infos := [] }]
    safe_epoch := 0 }

/-- Version produced by applying c10Task to c10BaseVersion: the levels are
untouched and the output table appears nowhere. -/
def c10ResultVersion : HummockVersion :=
  { levels := [{ level_idx := 0, table_infos := [c4Table1] }]
    safe_epoch := 0 }

theorem cmpBytes_refl (a : Bytes) : cmpBytes a a = Ordering.eq := by
  induction a with
  | nil => rfl
  | cons x xs ih => simp [cmpBytes, Nat.lt_irrefl, ih]

theorem cmpBytes_eq_iff {a b : Bytes} : cmpBytes a b = Ordering.eq ↔ a = b := by
  induction a generalizing b with
  | nil => cases b <;> simp [cmpBytes]
  | cons x xs ih =>
    cases b with
    | nil => simp [cmpBytes]
    | cons y ys =>
      rcases Nat.lt_trichotomy x y with h | h | h
      · simp [cmpBytes, h, Nat.ne_of_lt h]
      · subst h
        simp [cmpBytes, Nat.lt_irrefl, ih]
      · simp [cmpBytes, h, Nat.lt_asymm h, (Nat.ne_of_lt h).symm]

theorem cmpBytes_swap (a b : Bytes) : cmpBytes b a = (cmpBytes a b).swap := by
  induction a generalizing b with
  | nil => cases b <;> rfl
  | cons x xs ih =>
    cases b with
    | nil => rfl
    | cons y ys =>
      rcases Nat.lt_trichotomy x y with h | h | h
      · simp [cmpBytes, h, Nat.lt_asymm h, Ordering.swap]
      · subst h
        simp [cmpBytes, Nat.lt_irrefl, ih]
      · simp [cmpBytes, h, Nat.lt_asymm h, Ordering.swap]

theorem cmpBytes_lt_trans {a b c : Bytes} (hab : cmpBytes a b = Ordering.lt)
    (hbc : cmpBytes b c = Ordering.lt) : cmpBytes a c = Ordering.lt := by
  induction a generalizing b c with
  | nil =>
    cases c with
    | nil =>
      cases b with
      | nil => exact hab
      | cons y ys => simp [cmpBytes] at hbc
    | cons z zs => simp [cmpBytes]
  | cons x xs ih =>
    cases b with
    | nil => simp [cmpBytes] at hab
    | cons y ys =>
      cases c with
      | nil => simp [cmpBytes] at hbc
      | cons z zs =>
        by_cases hxy : x < y
        · by_cases hyz : y < z
          · have hxz : x < z := Nat.lt_trans hxy hyz
            simp [cmpBytes, hxz]
          · by_cases hzy : z < y
            · simp [cmpBytes, hyz, hzy] at hbc
            · have hyz' : y = z := by omega
              subst hyz'
              simp [cmpBytes, hxy]
        · by_cases hyx : y < x
          · simp [cmpBytes, hxy, hyx] at hab
          · have hxy' : x = y := by omega
            subst hxy'
            have h1 : cmpBytes xs ys = Ordering.lt := by
              simpa [cmpBytes, Nat.lt_irrefl] using hab
            by_cases hxz : x < z
            · simp [cmpBytes, hxz]
            · by_cases hzx : z < x
              · simp [cmpBytes, hxz, hzx] at hbc
              · have hxz' : x = z := by omega
                subst hxz'
                have h2 : cmpBytes ys zs = Ordering.lt := by
                  simpa [cmpBytes, Nat.lt_irrefl] using hbc
                simpa [cmpBytes, Nat.lt_irrefl] using ih h1 h2

theorem kr_cmp_eq_iff {a b : KeyRange} : KeyRange.cmp a b = Ordering.eq ↔ a = b := by
  unfold KeyRange.cmp
  cases h : cmpBytes a.left b.left with
  | eq =>
    have hl : a.left = b.left := cmpBytes_eq_iff.mp h
    constructor
    · intro hr
      have hr' : a.right = b.right := cmpBytes_eq_iff.mp hr
      cases a; cases b
      simp_all
    · intro he
      subst he
      exact cmpBytes_refl a.right
  | lt =>
    constructor
    · intro hc
      cases hc
    · intro he
      subst he
      rw [cmpBytes_refl] at h
      cases h
  | gt =>
    constructor
    · intro hc
      cases hc
    · intro he
      subst he
      rw [cmpBytes_refl] at h
      cases h

theorem kr_cmp_swap (a b : KeyRange) : KeyRange.cmp b a = (KeyRange.cmp a b).swap := by
  unfold KeyRange.cmp
  rw [cmpBytes_swap a.left b.left, cmpBytes_swap a.right b.right]
  cases cmpBytes a.left b.left <;> rfl

theorem kr_cmp_lt_trans {a b c : KeyRange} (hab : KeyRange.cmp a b = Ordering.lt)
    (hbc : KeyRange.cmp b c = Ordering.lt) : KeyRange.cmp a c = Ordering.lt := by
  unfold KeyRange.cmp at *
  cases h1 : cmpBytes a.left b.left with
  | lt =>
    cases h2 : cmpBytes b.left c.left with
    | lt => simp [cmpBytes_lt_trans h1 h2]
    | eq =>
      have : b.left = c.left := cmpBytes_eq_iff.mp h2
      rw [← this, h1]
    | gt => simp [h2] at hbc
  | eq =>
    have hl : a.left = b.left := cmpBytes_eq_iff.mp h1
    rw [h1] at hab
    cases h2 : cmpBytes b.left c.left with
    | lt => rw [hl, h2]
    | eq =>
      have hl2 : b.left = c.left := cmpBytes_eq_iff.mp h2
      rw [h2] at hbc
      rw [hl, hl2, cmpBytes_refl]
      exact cmpBytes_lt_trans hab hbc
    | gt => simp [h2] at hbc
  | gt => simp [h1] at hab

theorem kr_le_total (a b : KeyRange) : (KeyRange.le a b || KeyRange.le b a) = true := by
  unfold KeyRange.le
  cases h : KeyRange.cmp a b with
  | lt => simp
  | eq => simp
  | gt =>
    have : KeyRange.cmp b a = Ordering.lt := by
      rw [kr_cmp_swap, h]
      rfl
    simp [this]

theorem kr_le_trans {a b c : KeyRange} (hab : KeyRange.le a b = true)
    (hbc : KeyRange.le b c = true) : KeyRange.le a c = true := by
  unfold KeyRange.le at *
  cases h1 : KeyRange.cmp a b with
  | gt => simp [h1] at hab
  | eq =>
    have : a = b := kr_cmp_eq_iff.mp h1
    subst this
    exact hbc
  | lt =>
    cases h2 : KeyRange.cmp b c with
    | gt => simp [h2] at hbc
    | eq =>
      have : b = c := kr_cmp_eq_iff.mp h2
      subst this
      simp [h1]
    | lt => simp [kr_cmp_lt_trans h1 h2]

theorem sstLe_trans (a b c : SstableInfo) (hab : sstLe a b = true)
    (hbc : sstLe b c = true) : sstLe a c = true :=
  kr_le_trans hab hbc

theorem sstLe_total (a b : SstableInfo) : (sstLe a b || sstLe b a) = true :=
  kr_le_total a.key_range b.key_range

theorem list_set_getElem_self {α : Type} {l : List α} {i : Nat} {a : α}
    (h : l[i]? = some a) : l.set i a = l := by
  induction l generalizing i with
  | nil => simp at h
  | cons x xs ih =>
    cases i with
    | zero =>
      simp at h
      subst h
      rfl
    | succ j =>
      simp only [List.getElem?_cons_succ] at h
      rw [List.set_cons_succ, ih h]

theorem removeInputs_getElem {levels inputs levels1 : List Level}
    (h : removeInputs levels inputs = some levels1) :
    ∀ (j : Nat) (lvl1 : Level), levels1[j]? = some lvl1 →
      ∃ lvl : Level, levels[j]? = some lvl ∧ lvl1.level_idx = lvl.level_idx ∧
        lvl1.table_infos.Sublist lvl.table_infos := by
  induction inputs generalizing levels levels1 with
  | nil =>
    simp only [removeInputs, Option.some.injEq] at h
    subst h
    intro j lvl1 hj
    exact ⟨lvl1, hj, rfl, List.Sublist.refl _⟩
  | cons input rest ih =>
    cases levels with
    | nil => simp [removeInputs] at h
    | cons lvl levels' =>
      simp only [removeInputs] at h
      cases hrec : removeInputs levels' rest with
      | none =>
        rw [hrec] at h
        cases h
      | some rest1 =>
        rw [hrec] at h
        simp only [Option.some.injEq] at h
        subst h
        intro j lvl1 hj
        cases j with
        | zero =>
          simp only [List.getElem?_cons_zero, Option.some.injEq] at hj
          subst hj
          exact ⟨lvl, by simp, rfl, List.filter_sublist _⟩
        | succ j' =>
          simp only [List.getElem?_cons_succ] at hj ⊢
          exact ih hrec j' lvl1 hj

theorem rebuildL0_all_kept {stale outputs : List SstableInfo} {fl : Bool}
    {l : List SstableInfo} (h : ∀ t ∈ l, keepFn stale t = true) :
    rebuildL0 stale outputs l fl = l := by
  induction l with
  | nil => rfl
  | cons t rest ih =>
    have ht : keepFn stale t = true := h t (List.mem_cons_self t rest)
    simp only [rebuildL0, ht, if_true]
    rw [ih (fun x hx => h x (List.mem_cons_of_mem t hx))]

theorem rebuildL0_flag_filter (stale outputs : List SstableInfo)
    (l : List SstableInfo) : rebuildL0 stale outputs l true = l.filter (keepFn stale) := by
  induction l with
  | nil => rfl
  | cons t rest ih =>
    by_cases ht : keepFn stale t = true
    · simp only [rebuildL0, ht, if_true, List.filter_cons, ih]
    · have ht' : keepFn stale t = false := by
        cases hv : keepFn stale t
        · rfl
        · exact absurd hv ht
      simp [rebuildL0, ht', List.filter_cons, ih]

theorem rebuildL0_splice {stale outputs : List SstableInfo}
    {l : List SstableInfo} (h : ¬ ∀ t ∈ l, keepFn stale t = true) :
    rebuildL0 stale outputs l false =
      l.takeWhile (keepFn stale) ++ outputs ++
        ((l.dropWhile (keepFn stale)).filter (keepFn stale)) := by
  induction l with
  | nil => exact absurd (by intro t ht; cases ht) h
  | cons t rest ih =>
    by_cases ht : keepFn stale t = true
    · have hrest : ¬ ∀ x ∈ rest, keepFn stale x = true := by
        intro hall
        exact h (by
          intro x hx
          rcases List.mem_cons.mp hx with hx | hx
          · subst hx; exact ht
          · exact hall x hx)
      simp only [rebuildL0, ht, if_true, List.takeWhile_cons, List.dropWhile_cons]
      rw [ih hrest]
      simp [ht]
    · have ht' : keepFn stale t = false := by
        cases hv : keepFn stale t
        · rfl
        · exact absurd hv ht
      simp only [rebuildL0, ht', List.takeWhile_cons, List.dropWhile_cons,
        Bool.not_false, if_false, if_true]
      rw [rebuildL0_flag_filter]
      simp [List.filter_cons, ht']

theorem remove_task_idem (h : LevelHandler) (t : Nat) :
    (h.remove_task t).remove_task t = h.remove_task t := by
  unfold LevelHandler.remove_task
  simp [List.filter_filter]

theorem reportLoop_preserves_fixed {t : Nat} {ls : List Level}
    {hs hs1 : List LevelHandler} (hrun : reportLoop t hs ls = some hs1) :
    ∀ (j : Nat) (h : LevelHandler), hs[j]? = some h → h.remove_task t = h →
      hs1[j]? = some h := by
  induction ls generalizing hs with
  | nil =>
    simp only [reportLoop, Option.some.injEq] at hrun
    subst hrun
    exact fun _ _ hj _ => hj
  | cons lvl rest ih =>
    simp only [reportLoop] at hrun
    cases hstep : removeTaskAt hs lvl.level_idx t with
    | none =>
      rw [hstep] at hrun
      cases hrun
    | some hs' =>
      rw [hstep] at hrun
      intro j h hj hfix
      apply ih hrun j h _ hfix
      unfold removeTaskAt at hstep
      cases hidx : hs[lvl.level_idx]? with
      | none =>
        rw [hidx] at hstep
        cases hstep
      | some h0 =>
        rw [hidx] at hstep
        simp only [Option.some.injEq] at hstep
        subst hstep
        by_cases hji : j = lvl.level_idx
        · subst hji
          rw [hidx] at hj
          simp only [Option.some.injEq] at hj
          subst hj
          have hlen : lvl.level_idx < hs.length := by
            rcases List.getElem?_eq_some.mp hidx with ⟨hl, _⟩
            exact hl
          rw [List.getElem?_set_self hlen, hfix]
        · rw [List.getElem?_set_ne (fun he => hji he.symm)]
          exact hj

theorem reportLoop_idem {t : Nat} {ls : List Level} {hs hs1 : List LevelHandler}
    (hrun : reportLoop t hs ls = some hs1) : reportLoop t hs1 ls = some hs1 := by
  induction ls generalizing hs with
  | nil =>
    simp only [reportLoop, Option.some.injEq] at hrun
    subst hrun
    rfl
  | cons lvl rest ih =>
    simp only [reportLoop] at hrun ⊢
    cases hstep : removeTaskAt hs lvl.level_idx t with
    | none =>
      rw [hstep] at hrun
      cases hrun
    | some hs' =>
      rw [hstep] at hrun
      unfold removeTaskAt at hstep
      cases hidx : hs[lvl.level_idx]? with
      | none =>
        rw [hidx] at hstep
        cases hstep
      | some h0 =>
        rw [hidx] at hstep
        simp only [Option.some.injEq] at hstep
        subst hstep
        have hlen : lvl.level_idx < hs.length := by
          rcases List.getElem?_eq_some.mp hidx with ⟨hl, _⟩
          exact hl
        have hfixpos : hs1[lvl.level_idx]? = some (h0.remove_task t) :=
          reportLoop_preserves_fixed hrun lvl.level_idx (h0.remove_task t)
            (List.getElem?_set_self hlen) (remove_task_idem h0 t)
        have hstep1 : removeTaskAt hs1 lvl.level_idx t = some hs1 := by
          unfold removeTaskAt
          rw [hfixpos]
          show some (hs1.set lvl.level_idx ((h0.remove_task t).remove_task t)) = some hs1
          rw [remove_task_idem, list_set_getElem_self hfixpos]
        rw [hstep1]
        exact ih hrun

theorem get_compact_task_eq {s : CompactStatus} {pick : PickFn} {levels : List Level}
    {task : CompactTask} {s1 : CompactStatus}
    (h : s.get_compact_task pick levels = some (task, s1)) :
    task.task_id = s.next_compact_task_id ∧
      s1.next_compact_task_id = s.next_compact_task_id + 1 ∧
      task.watermark = HummockEpoch.MAX ∧
      task.is_target_ultimate_and_leveling =
        (decide (task.target_level = s1.level_handlers.length - 1) &&
          decide (0 < task.selectLevelIdx)) := by
  unfold CompactStatus.get_compact_task at h
  cases hp : pick s.next_compact_task_id levels s.level_handlers with
  | none =>
    rw [hp] at h
    cases h
  | some r =>
    rw [hp] at h
    obtain ⟨ret, handlers⟩ := r
    simp only [Option.some.injEq, Prod.mk.injEq] at h
    obtain ⟨h1, h2⟩ := h
    subst h1
    subst h2
    exact ⟨rfl, rfl, rfl, rfl⟩

theorem apply_target0_inv {task : CompactTask} {v v' : HummockVersion}
    (ht : task.target_level = 0)
    (h : CompactStatus.apply_compact_result task v = some v') :
    ∃ (input0 : Level) (level0 : Level),
      task.input_ssts[0]? = some input0 ∧ input0.level_idx = 0 ∧
        v.levels[0]? = some level0 ∧
        v'.safe_epoch = max v.safe_epoch task.watermark ∧
        v'.levels = v.levels.set 0 (withTableInfos level0
          (rebuildL0 input0.table_infos task.sorted_output_ssts level0.table_infos false)) := by
  unfold CompactStatus.apply_compact_result at h
  rw [if_pos ht] at h
  split at h
  · cases h
  · rename_i input0 hi
    split at h
    · cases h
    · rename_i hl0
      push_neg at hl0
      split at h
      · cases h
      · rename_i level0 hv
        simp only [Option.some.injEq] at h
        subst h
        exact ⟨input0, level0, hi, hl0, hv, rfl, rfl⟩

theorem apply_targetN_inv {task : CompactTask} {v v' : HummockVersion}
    (ht : task.target_level ≠ 0)
    (h : CompactStatus.apply_compact_result task v = some v') :
    ∃ (levels1 : List Level) (target_lvl : Level),
      removeInputs v.levels task.input_ssts = some levels1 ∧
        levels1[task.target_level]? = some target_lvl ∧
        v'.safe_epoch = max v.safe_epoch task.watermark ∧
        v'.levels = levels1.set task.target_level (withTableInfos target_lvl
          ((target_lvl.table_infos ++ task.sorted_output_ssts).mergeSort sstLe)) := by
  unfold CompactStatus.apply_compact_result at h
  rw [if_neg ht] at h
  split at h
  · cases h
  · rename_i levels1 hr
    split at h
    · cases h
    · rename_i target_lvl hg
      simp only [Option.some.injEq] at h
      subst h
      exact ⟨levels1, target_lvl, hr, hg, rfl, rfl⟩

theorem apply_safe_epoch {task : CompactTask} {v v' : HummockVersion}
    (h : CompactStatus.apply_compact_result task v = some v') :
    v'.safe_epoch = max v.safe_epoch task.watermark := by
  by_cases ht : task.target_level = 0
  · obtain ⟨_, _, _, _, _, he, _⟩ := apply_target0_inv ht h
    exact he
  · obtain ⟨_, _, _, _, he, _⟩ := apply_targetN_inv ht h
    exact he

theorem runPicks_task_id_lb (pick : PickFn) (s : CompactStatus)
    (inputs : List (List Level)) :
    ∀ task ∈ (runPicks pick s inputs).1, s.next_compact_task_id ≤ task.task_id := by
  induction inputs generalizing s with
  | nil =>
    intro task htask
    simp [runPicks] at htask
  | cons levels rest ih =>
    intro task htask
    simp only [runPicks] at htask
    cases hg : s.get_compact_task pick levels with
    | none =>
      rw [hg] at htask
      exact ih s task htask
    | some p =>
      obtain ⟨task0, s1⟩ := p
      rw [hg] at htask
      simp only [List.mem_cons] at htask
      rcases htask with heq | hmem
      · subst heq
        exact Nat.le_of_eq (get_compact_task_eq hg).1.symm
      · have h1 := (get_compact_task_eq hg).2.1
        have h2 := ih s1 task hmem
        omega

/-- C1: whenever get_compact_task returns a task, the task carries the
pre-call value of next_compact_task_id and the post-call counter is exactly
one greater; consequently, over any sequence of picks, the tasks handed out
by the successful picks carry strictly increasing, never-repeated ids and
the final counter equals the initial one plus the number of successful
picks. -/
theorem c1_monotonic_task_ids (pick : PickFn) (s : CompactStatus) :
    (∀ (levels : List Level) (task : CompactTask) (s1 : CompactStatus),
        s.get_compact_task pick levels = some (task, s1) →
          task.task_id = s.next_compact_task_id ∧
            s1.next_compact_task_id = s.next_compact_task_id + 1) ∧
      ∀ inputs : List (List Level),
        (runPicks pick s inputs).2.next_compact_task_id
            = s.next_compact_task_id + (runPicks pick s inputs).1.length ∧
          ((runPicks pick s inputs).1.map CompactTask.task_id).Pairwise (· < ·) := by
  constructor
  · intro levels task s1 h
    exact ⟨(get_compact_task_eq h).1, (get_compact_task_eq h).2.1⟩
  · intro inputs
    induction inputs generalizing s with
    | nil => simp [runPicks]
    | cons levels rest ih =>
      simp only [runPicks]
      cases hg : s.get_compact_task pick levels with
      | none => exact ih s
      | some p =>
        obtain ⟨task0, s1⟩ := p
        obtain ⟨hc, hp⟩ := ih s1
        have he := get_compact_task_eq hg
        constructor
        · simp only [List.length_cons]
          omega
        · simp only [List.map_cons]
          refine List.Pairwise.cons ?_ hp
          intro b hb
          simp only [List.mem_map] at hb
          obtain ⟨t1, ht1, rfl⟩ := hb
          have hlb := runPicks_task_id_lb pick s1 rest t1 ht1
          have h1 := he.1
          have h2 := he.2.1
          omega

/-- C1 witness: from a fresh status, the demo pick hands out task id 1 and
leaves the counter at 2. -/
theorem c1_monotonic_task_ids_witness :
    demoTask1.task_id = CompactStatus.new.next_compact_task_id ∧
      demoStatus1.next_compact_task_id = CompactStatus.new.next_compact_task_id + 1 :=
  (c1_monotonic_task_ids demoPick CompactStatus.new).1 [] demoTask1 demoStatus1 rfl

/-- C5: the version returned by apply_compact_result has safe_epoch equal to
the maximum of the base version's safe_epoch and the task's watermark; in
particular the safe_epoch never decreases. -/
theorem c5_safe_epoch_max (task : CompactTask) (v v' : HummockVersion)
    (h : CompactStatus.apply_compact_result task v = some v') :
    v'.safe_epoch = max v.safe_epoch task.watermark ∧
      v.safe_epoch ≤ v'.safe_epoch := by
  have he := apply_safe_epoch h
  exact ⟨he, by rw [he]; exact Nat.le_max_left _ _⟩

/-- C5 witness: applying the demo task to a version with safe_epoch 5. -/
theorem c5_safe_epoch_max_witness :
    demoVersion7After.safe_epoch = max demoVersion7.safe_epoch demoTask1.watermark ∧
      demoVersion7.safe_epoch ≤ demoVersion7After.safe_epoch :=
  c5_safe_epoch_max demoTask1 demoVersion7 demoVersion7After rfl

/-- C7: every task built by get_compact_task has watermark HummockEpoch::MAX,
so applying it drives the resulting version's safe_epoch to the maximal u64
epoch whatever the base safe_epoch (itself a u64, hence at most MAX) was. -/
theorem c7_watermark_max (pick : PickFn) (s s1 : CompactStatus)
    (levels : List Level) (task : CompactTask) (v v' : HummockVersion)
    (hG : s.get_compact_task pick levels = some (task, s1))
    (hA : CompactStatus.apply_compact_result task v = some v')
    (hE : v.safe_epoch ≤ HummockEpoch.MAX) :
    task.watermark = HummockEpoch.MAX ∧ v'.safe_epoch = HummockEpoch.MAX := by
  have hw := (get_compact_task_eq hG).2.2.1
  refine ⟨hw, ?_⟩
  have he := apply_safe_epoch hA
  rw [he, hw]
  exact Nat.max_eq_right hE

/-- C7 witness: the demo pick plus a base version at epoch 5. -/
theorem c7_watermark_max_witness :
    demoTask1.watermark = HummockEpoch.MAX ∧
      demoVersion7After.safe_epoch = HummockEpoch.MAX :=
  c7_watermark_max demoPick CompactStatus.new demoStatus1 [] demoTask1 demoVersion7
    demoVersion7After rfl rfl (by decide)

/-- C8: a task built by get_compact_task has its ultimate-and-leveling flag
set iff its target level index is the index of the last level handler of the
post-pick status and its source level index is positive. -/
theorem c8_ultimate_flag (pick : PickFn) (s s1 : CompactStatus)
    (levels : List Level) (task : CompactTask)
    (hG : s.get_compact_task pick levels = some (task, s1))
    (_hne : s1.level_handlers ≠ []) :
    task.is_target_ultimate_and_leveling = true ↔
      (task.target_level = s1.level_handlers.length - 1 ∧
        0 < task.selectLevelIdx) := by
  have hf := (get_compact_task_eq hG).2.2.2
  rw [hf]
  simp [Bool.and_eq_true, decide_eq_true_iff]

/-- C8 witness: the demo task targets the last handler (index 1) but its
source level is 0, so the flag is false and so is the right-hand side. -/
theorem c8_ultimate_flag_witness :
    demoTask1.is_target_ultimate_and_leveling = true ↔
      (demoTask1.target_level = demoStatus1.level_handlers.length - 1 ∧
        0 < demoTask1.selectLevelIdx) :=
  c8_ultimate_flag demoPick CompactStatus.new demoStatus1 [] demoTask1 rfl (by decide)

/-- C9: a not-found answer from the metadata store makes CompactStatus::get
return Ok(None) and not an error, and a freshly-initialized CompactStatus
has exactly the two level handlers for levels 0 and 1 and counter 1. -/
theorem c9_not_found_fresh (decodeStatus : Bytes → Option CompactStatus)
    (msg : String) :
    CompactStatus.get (Except.error (StorageError.itemNotFound msg)) decodeStatus =
        GetOutcome.ok none ∧
      CompactStatus.new.level_handlers.map LevelHandler.level_idx = [0, 1] ∧
      CompactStatus.new.level_handlers.length = 2 ∧
      CompactStatus.new.next_compact_task_id = 1 :=
  ⟨rfl, rfl, rfl, rfl⟩

/-- C3 counterexample: on a record that fails to decode, CompactStatus::get
aborts on the unwrap (a panic), which is not a returned error, refuting the
returned-error reading of the claim at this concrete input. -/
theorem c3_decode_counterexample :
    CompactStatus.get (Except.ok badBytes) failDecode = GetOutcome.panicked ∧
      (CompactStatus.get (Except.ok badBytes) failDecode).isOutcomeErr = false :=
  ⟨rfl, rfl⟩

/-- C3 amended: whenever the store returns a record that the decoder
rejects, CompactStatus::get panics (aborts); in particular the failure is
never converted into Ok(None), a fresh status, or any returned value. -/
theorem c3_decode_amended (store_result : Except StorageError Bytes)
    (decodeStatus : Bytes → Option CompactStatus) (v : Bytes)
    (hOk : store_result = Except.ok v) (hDec : decodeStatus v = none) :
    CompactStatus.get store_result decodeStatus = GetOutcome.panicked := by
  subst hOk
  show (match decodeStatus v with
    | some compact_status => GetOutcome.ok (some compact_status)
    | none => GetOutcome.panicked) = GetOutcome.panicked
  rw [hDec]

/-- C3 witness: the rejecting decoder on a concrete stored record. -/
theorem c3_decode_amended_witness :
    CompactStatus.get (Except.ok badBytes) failDecode = GetOutcome.panicked :=
  c3_decode_amended (Except.ok badBytes) failDecode badBytes rfl rfl

/-- C6: report_compact_task is idempotent: if a first report succeeded (did
not panic on an out-of-range input level index), reporting the same task
again succeeds and leaves every level handler exactly as the first report
left it. -/
theorem c6_report_idempotent (s s1 : CompactStatus) (task : CompactTask)
    (h : s.report_compact_task task = some s1) :
    s1.report_compact_task task = some s1 := by
  unfold CompactStatus.report_compact_task at h ⊢
  cases hrun : reportLoop task.task_id s.level_handlers task.input_ssts with
  | none =>
    rw [hrun] at h
    cases h
  | some handlers =>
    rw [hrun] at h
    simp only [Option.some.injEq] at h
    subst h
    dsimp only
    rw [reportLoop_idem hrun]

/-- C6 witness: reporting demoTask6 a second time returns the state produced
by the first report unchanged. -/
theorem c6_report_idempotent_witness :
    demoStatus6After.report_compact_task demoTask6 = some demoStatus6After :=
  c6_report_idempotent demoStatus6 demoStatus6After demoTask6 rfl

/-- C10: for a target-level-0 task none of whose input table ids occurs in
the base version's level 0, apply_compact_result leaves every level exactly
as it was; in particular the non-empty output list is inserted nowhere. -/
theorem c10_outputs_dropped (task : CompactTask) (v v' : HummockVersion)
    (input0 level0 : Level)
    (ht : task.target_level = 0)
    (_hout : task.sorted_output_ssts ≠ [])
    (hi : task.input_ssts[0]? = some input0)
    (hl : v.levels[0]? = some level0)
    (hkeep : ∀ t ∈ level0.table_infos, keepFn input0.table_infos t = true)
    (hA : CompactStatus.apply_compact_result task v = some v') :
    v'.levels = v.levels := by
  obtain ⟨input0', level0', hi', _, hl', _, hlv⟩ := apply_target0_inv ht hA
  rw [hi] at hi'
  injection hi' with hi'
  subst hi'
  rw [hl] at hl'
  injection hl' with hl'
  subst hl'
  rw [hlv, rebuildL0_all_kept hkeep]
  have hw : withTableInfos level0 level0.table_infos = level0 := rfl
  rw [hw]
  exact list_set_getElem_self hl

/-- C10 witness: a task whose single input table id 2 matches nothing in the
base level 0; the result's levels are the base levels. -/
theorem c10_outputs_dropped_witness : c10ResultVersion.levels = c10BaseVersion.levels :=
  c10_outputs_dropped c10Task c10BaseVersion c10ResultVersion
    { level_idx := 0, table_infos := [c4Table2] }
    { level_idx := 0, table_infos := [c4Table1] }
    rfl (by decide) rfl rfl (by decide) rfl

/-- C4: a target-level-0 task that removes at least one level-0 table
rebuilds level 0 as: the kept tables that precede the first removed one, in
order, then the whole output list spliced in contiguously exactly once, then
the remaining kept tables in their original order. -/
theorem c4_l0_splice (task : CompactTask) (v v' : HummockVersion)
    (input0 level0 : Level)
    (ht : task.target_level = 0)
    (hi : task.input_ssts[0]? = some input0)
    (hl : v.levels[0]? = some level0)
    (hrem : ¬ ∀ t ∈ level0.table_infos, keepFn input0.table_infos t = true)
    (hA : CompactStatus.apply_compact_result task v = some v') :
    v'.levels[0]? = some (withTableInfos level0
      (level0.table_infos.takeWhile (keepFn input0.table_infos) ++
        task.sorted_output_ssts ++
        ((level0.table_infos.dropWhile (keepFn input0.table_infos)).filter
          (keepFn input0.table_infos)))) := by
  obtain ⟨input0', level0', hi', _, hl', _, hlv⟩ := apply_target0_inv ht hA
  rw [hi] at hi'
  injection hi' with hi'
  subst hi'
  rw [hl] at hl'
  injection hl' with hl'
  subst hl'
  rw [hlv]
  have h0 : (0 : Nat) < v.levels.length := by
    rcases List.getElem?_eq_some.mp hl with ⟨hlen, _⟩
    exact hlen
  rw [List.getElem?_set_self h0, rebuildL0_splice hrem]

/-- C4 witness: removing the middle table of three; the output table lands
exactly at its position. -/
theorem c4_l0_splice_witness :
    c4ResultVersion.levels[0]? =
      some { level_idx := 0, table_infos := [c4Table1, c4OutTable, c4Table3] } :=
  c4_l0_splice c4Task c4BaseVersion c4ResultVersion
    { level_idx := 0, table_infos := [c4Table2] }
    { level_idx := 0, table_infos := [c4Table1, c4Table2, c4Table3] }
    rfl rfl rfl (by decide) rfl

/-- C2 counterexample: a task with target level 1 that removes nothing and
outputs a table whose key range duplicates the one already present; the base
version satisfies the sorted-and-non-overlapping invariant on all levels
with level_idx at least 1, the application succeeds, and the resulting
version violates the invariant (level 1 holds two overlapping tables). -/
theorem c2_invariant_counterexample :
    c2Task.target_level ≠ 0 ∧ versionLevelsOk c2BaseVersion ∧
      CompactStatus.apply_compact_result c2Task c2BaseVersion = some c2ResultVersion ∧
      ¬ versionLevelsOk c2ResultVersion := by
  refine ⟨by decide, ?_, rfl, ?_⟩
  · unfold versionLevelsOk levelOk
    decide
  · unfold versionLevelsOk levelOk
    decide

/-- C2 amended: for a non-zero target level, apply_compact_result keeps the
full sorted-and-non-overlapping invariant on every level with level_idx at
least 1 other than the one at the target position, and guarantees the level
at the target position to be sorted by key range (non-overlap of the target
level is not re-established by the re-sort and needs the worker's outputs to
be disjoint from the remaining tables). -/
theorem c2_invariant_amended (task : CompactTask) (v v' : HummockVersion)
    (ht : task.target_level ≠ 0)
    (hInv : versionLevelsOk v)
    (hA : CompactStatus.apply_compact_result task v = some v') :
    (∀ (j : Nat) (lvl : Level), j ≠ task.target_level → v'.levels[j]? = some lvl →
        1 ≤ lvl.level_idx → levelOk lvl) ∧
      ∀ lvl : Level, v'.levels[task.target_level]? = some lvl →
        levelSorted lvl.table_infos := by
  obtain ⟨levels1, target_lvl, hr, hg, _, hlv⟩ := apply_targetN_inv ht hA
  constructor
  · intro j lvl hj hjv hidx
    rw [hlv, List.getElem?_set_ne (fun he => hj he.symm)] at hjv
    obtain ⟨lvl0, hl0, hidx_eq, hsub⟩ := removeInputs_getElem hr j lvl hjv
    have hok : levelOk lvl0 :=
      hInv lvl0 (List.getElem?_mem hl0) (by rw [← hidx_eq]; exact hidx)
    exact List.Pairwise.sublist hsub hok
  · intro lvl hjv
    rw [hlv] at hjv
    have htl : task.target_level < levels1.length := by
      rcases List.getElem?_eq_some.mp hg with ⟨hlen, _⟩
      exact hlen
    rw [List.getElem?_set_self htl] at hjv
    simp only [Option.some.injEq] at hjv
    subst hjv
    show levelSorted ((target_lvl.table_infos ++ task.sorted_output_ssts).mergeSort sstLe)
    exact List.sorted_mergeSort sstLe_trans sstLe_total _

/-- C2 witness: on the counterexample input itself the amended statement
holds: the target level of the result is sorted by key range. -/
theorem c2_invariant_amended_witness : levelSorted [c2Table10, c2Table11] := by
  have h := (c2_invariant_amended c2Task c2BaseVersion c2ResultVersion (by decide)
    (by unfold versionLevelsOk levelOk; decide) rfl).2
  exact h { level_idx := 1, table_infos := [c2Table10, c2Table11] } rfl
